import Mathlib

/-!
Shallow embedding of the tworld browser client (play/build JavaScript) and
proofs about its message handling, collaborative-edit UI, debounced
preference writes, pane updates, portal lists, line input and description
parsing.

Conventions of the embedding:
  * JavaScript strings are Lean `String`; the jQuery trim and the regex
    whitespace class are modelled explicitly over `List Char`.
  * JavaScript objects used as string-keyed maps are association lists
    `List (String × α)` with JS object semantics: assigning to an existing
    key keeps its position, assigning a fresh key appends, `delete` removes.
  * DOM side effects (pane contents, table rows, warning lines) are fields
    of explicit state records; each handler is a state-passing function.
  * `window.setTimeout` and its cancellation are modelled by an explicit
    absolute fire time carried in the state, with a driver that fires a
    pending timer when the timeline reaches it.
-/

/-! ## JavaScript string helpers -/

/-- The JS regex whitespace class (the characters matched by a backslash-s,
restricted to those that occur in practice in this client). -/
def jsIsSpace (c : Char) : Bool :=
  c = ' ' || c = '\t' || c = '\n' || c = '\r' ||
  c = '\x0b' || c = '\x0c' || c = ' ' || c = '﻿'

/-- Trim of a character list on both ends, as jQuery.trim does. -/
def jstrimList (l : List Char) : List Char :=
  ((l.dropWhile jsIsSpace).reverse.dropWhile jsIsSpace).reverse

/-- jQuery.trim on strings. -/
def jstrim (s : String) : String :=
  ⟨jstrimList s.data⟩

/-- One pass of the regex replacement of whitespace runs by a single space:
the Boolean argument records whether the previous character was whitespace
(in which case further whitespace of the same run is dropped). -/
def collapseWsAux : Bool → List Char → List Char
  | _, [] => []
  | prev, c :: rest =>
    if jsIsSpace c then
      if prev then collapseWsAux true rest
      else ' ' :: collapseWsAux true rest
    else c :: collapseWsAux false rest

/-- The regex replacement of every whitespace run by a single space, as in
val.replace(new RegExp of backslash-s-plus, g-flag, one space). -/
def collapseWs (s : String) : String :=
  ⟨collapseWsAux false s.data⟩

/-! ## C1: websocket message dispatch (evhan_websocket_message)

The command_table maps the eight recognized command names to handlers; the
dispatch result records which handler was invoked, or that the message was
logged and dropped, or (for the static/js/play.js variant) that the
undefined lookup was called anyway, raising a TypeError. -/

/-- The eight handlers registered in command_table. -/
inductive Handler where
  | event | update | updateplist | updatescopes
  | clearfocus | message | error | extendcookie
deriving DecidableEq, Repr

/-- Lookup in the command_table object literal. -/
def command_table (cmd : String) : Option Handler :=
  if cmd = "event" then some .event
  else if cmd = "update" then some .update
  else if cmd = "updateplist" then some .updateplist
  else if cmd = "updatescopes" then some .updatescopes
  else if cmd = "clearfocus" then some .clearfocus
  else if cmd = "message" then some .message
  else if cmd = "error" then some .error
  else if cmd = "extendcookie" then some .extendcookie
  else none

/-- Outcome of one onmessage invocation. -/
inductive DispatchResult where
  /-- A handler from command_table was invoked on the parsed object. -/
  | handled (h : Handler)
  /-- Logged badly-formatted message and returned (JSON.parse threw). -/
  | loggedBadFormat
  /-- Logged command not understood and returned. -/
  | loggedUnknown
  /-- A TypeError was raised by calling an undefined table entry. -/
  | raised
deriving DecidableEq, Repr

/-- The incoming event data after the JSON.parse attempt: none when parsing
threw, otherwise the parsed object with its cmd field (itself absent when
the object has none). -/
structure ParsedMsg where
  cmd : Option String
deriving DecidableEq, Repr

/-- evhan_websocket_message as in the newer client (src/unnamed/part_002
lines 2614-2634): an unknown cmd is logged and the function returns. -/
def evhan_websocket_message (parsed : Option ParsedMsg) : DispatchResult :=
  match parsed with
  | none => .loggedBadFormat
  | some obj =>
    match command_table (obj.cmd.getD "undefined") with
    | none => .loggedUnknown
    | some f => .handled f

/-- evhan_websocket_message as in src/static/js/play.js lines 984-1001:
after logging command not understood there is no return, so func(obj) is
executed with func undefined and a TypeError is raised. -/
def evhan_websocket_message_play_js (parsed : Option ParsedMsg) : DispatchResult :=
  match parsed with
  | none => .loggedBadFormat
  | some obj =>
    match command_table (obj.cmd.getD "undefined") with
    | none => .raised
    | some f => .handled f

/-! ## C2: property row save / revert (build page)

A table row (propref) shows a property: the key input, the per-subkey text
areas (derived from the property value by the editls computation in
update_prop), the dirty flag and the warning line. -/

/-- A property value, tagged as in the valtype dispatch of update_prop. -/
inductive PropVal where
  | value (value : String)
  | text (text : String)
  | code (text : String)
  | move (loc text oleave oarrive : String)
  | event (text otext : String)
  | delete
  | other (json : String)
deriving DecidableEq, Repr

/-- A property as sent by the server: id, key and value. -/
structure PropData where
  id : String
  key : String
  val : PropVal
deriving DecidableEq, Repr

/-- The editls list computed by update_prop: the subkey and displayed
value of each subpane of the value cell. -/
def editls : PropVal → List (String × String)
  | .value v => [("value", v)]
  | .text t => [("text", t)]
  | .code t => [("text", t)]
  | .move loc t ol oa =>
      [("loc", loc), ("text", t), ("oleave", ol), ("oarrive", oa)]
  | .event t ot => [("text", t), ("otext", ot)]
  | .delete => []
  | .other j => [("value", j)]

/-- Client-side state of one property row. -/
structure PropRef where
  /-- The stored server value (propref.val). -/
  val : PropData
  /-- The key input contents. -/
  displayedKey : String
  /-- The subpane contents of the value cell. -/
  areas : List (String × String)
  /-- Whether the row is marked dirty (save and revert buttons shown). -/
  dirty : Bool
  /-- The warning line (none when hidden). -/
  warning : Option String
deriving DecidableEq, Repr

/-- prop_set_dirty. -/
def prop_set_dirty (pr : PropRef) (d : Bool) : PropRef :=
  { pr with dirty := d }

/-- prop_set_warning. -/
def prop_set_warning (pr : PropRef) (m : Option String) : PropRef :=
  { pr with warning := m }

/-- update_prop on an existing row: refresh the key input and the subpane
contents from the given property, and (unless nocopy) store it as the
rows val. -/
def update_prop (pr : PropRef) (prop : PropData) (nocopy : Bool) : PropRef :=
  { pr with
    val := if nocopy then pr.val else prop,
    displayedKey := prop.key,
    areas := editls prop.val }

/-- The server reply to the /build/setprop POST issued by evhan_button_save:
either a reply object carrying an error field, or a success carrying the
(possibly normalized) saved property, or a delete acknowledgement. -/
inductive SaveReply where
  | error (msg : String)
  | success (prop : PropData)
  | successDelete (prop : PropData)
deriving DecidableEq, Repr

/-- The success and error callbacks of the jQuery.ajax call in
evhan_button_save, as they act on the row. The none result means the row
was removed (delete_prop). A transport error behaves like a reply error. -/
def evhan_button_save_reply (pr : PropRef) (reply : SaveReply) :
    Option PropRef :=
  match reply with
  | .error msg => some (prop_set_dirty (prop_set_warning pr (some msg)) true)
  | .success prop =>
      some (prop_set_dirty
        (prop_set_warning (update_prop pr prop false) none) false)
  | .successDelete _ => none

/-- evhan_button_revert: rebuild the row from the stored server value,
clear the dirty flag and the warning. -/
def evhan_button_revert (pr : PropRef) : PropRef :=
  prop_set_warning (prop_set_dirty (update_prop pr pr.val false) false) none

/-! ## C3: debounced uiprefs writes (note_uipref_changed)

changed_uiprefs is a JS object used as a set of keys; uipref_changed_timer
is the pending setTimeout handle. We model the handle as the absolute fire
time (in milliseconds) of the pending timer; delay_func(2, f) schedules f
at now + 2000. A driver processes a timeline of calls, firing a pending
timer whenever its fire time is reached before the next call. -/

/-- Insertion into a JS object used as a set: an existing key is left in
place, a fresh key is appended (JS property insertion order). -/
def objInsertKey (ks : List String) (k : String) : List String :=
  if ks.contains k then ks else ks ++ [k]

/-- State of the debounce machinery, plus the log of uiprefs messages sent
(fire time and map payload). -/
structure DebounceState where
  /-- Keys of changed_uiprefs, in insertion order. -/
  changed : List String
  /-- Absolute fire time of the pending timer, if any. -/
  timer : Option Nat
  /-- The uiprefs messages sent so far: fire time and map contents. -/
  sent : List (Nat × List (String × String))
deriving DecidableEq, Repr

/-- send_uipref_changed, fired at time t: when connected, send one uiprefs
message whose map pairs every changed key with its current value in
uiprefs, then empty changed_uiprefs; when not connected, leave
changed_uiprefs full of keys. -/
def send_uipref_changed (uiprefs : String → String) (connected : Bool)
    (t : Nat) (s : DebounceState) : DebounceState :=
  if connected then
    { changed := [],
      timer := none,
      sent := s.sent ++ [(t, s.changed.map (fun k => (k, uiprefs k)))] }
  else
    { s with timer := none }

/-- note_uipref_changed, called at time now: record the key in
changed_uiprefs, cancel any pending timer and schedule
send_uipref_changed 2000 ms from now. -/
def note_uipref_changed (now : Nat) (key : String) (s : DebounceState) :
    DebounceState :=
  { s with
    changed := objInsertKey s.changed key,
    timer := some (now + 2000) }

/-- Timeline driver: process the remaining (time, key) calls in order,
firing the pending timer whenever its fire time arrives no later than the
next call; after the last call, a still-pending timer fires. -/
def run_uipref_calls (uiprefs : String → String) (connected : Bool) :
    List (Nat × String) → DebounceState → DebounceState
  | [], s =>
    match s.timer with
    | none => s
    | some tf => send_uipref_changed uiprefs connected tf s
  | (t, k) :: rest, s =>
    let s1 :=
      match s.timer with
      | none => s
      | some tf =>
        if tf ≤ t then send_uipref_changed uiprefs connected tf s else s
    run_uipref_calls uiprefs connected rest (note_uipref_changed t k s1)

/-- The well-spacing condition of a call timeline: starting from the time
prev of the previous call, each later call comes no earlier and strictly
less than 2000 ms after its predecessor. -/
def gapsUnder2s : Nat → List (Nat × String) → Prop
  | _, [] => True
  | prev, (t, _) :: rest => prev ≤ t ∧ t < prev + 2000 ∧ gapsUnder2s t rest

instance : ∀ prev calls, Decidable (gapsUnder2s prev calls) := by
  intro prev calls
  induction calls generalizing prev with
  | nil => exact isTrue trivial
  | cons c rest ih =>
    have := ih c.1
    unfold gapsUnder2s
    infer_instance

/-! ## C4: cmd_update and cmd_clearfocus

The panes touched by cmd_update: the tool pane world line, the locale
pane, the populace line, the focus pane and the instance tool. Description
content is kept opaque (raw message payloads). -/

/-- Payload of the world field of an update message. -/
structure WorldData where
  world : String
  scope : String
  creator : String
deriving DecidableEq, Repr

/-- Payload of the locale field of an update message. -/
structure LocaleData where
  desc : String
  name : String
deriving DecidableEq, Repr

/-- The special focus payload: the ls array passed to
focuspane_set_special, tagged by ls[0] as in the source dispatch. Portal
objects, descriptions and list entries are kept opaque. The raising
constructor stands for a payload whose pane construction throws inside the
try block (for example a portlist whose ls[1] is missing, so that
portlist.length raises), which the catch handler turns into an error
pane after resetting the working values. -/
inductive SpecialPayload where
  /-- An array tagged selfdesc: name, pronoun, desc, extratext. -/
  | selfdesc (name pronoun desc extratext : String)
  /-- An array tagged editstr: key, value, extratext. -/
  | editstr (key value extratext : String)
  /-- An array tagged portal: target, portal object, backtarget,
  extratext. -/
  | portal (target portalobj backtarget extratext : String)
  /-- An array tagged portlist: the portal list, extratext, and whether
  ls[3] (editable) is truthy. -/
  | portlist (portlist : List String) (extratext : String) (editable : Bool)
  /-- An array with an unrecognized type tag; stringform is the JS string
  form of the whole array, used in the fallback debug pane. -/
  | other (typetag stringform : String)
  /-- A payload whose pane construction raises inside the try block. -/
  | raising (typetag : String)
deriving DecidableEq, Repr

/-- A truthy focus value of an update message: one JSON value, rendered as
a description by focuspane_set when focusspecial is not set, and read as a
special array by focuspane_set_special when it is. The structure carries
both readings of the same value. -/
structure FocusVal where
  desc : String
  special : SpecialPayload
deriving DecidableEq, Repr

/-- A present focus field: either a falsy value (clear the pane) or a
truthy payload. -/
inductive FocusField where
  | falsy
  | val (v : FocusVal)
deriving DecidableEq, Repr

/-- What the focus pane currently shows. -/
inductive FocusContent where
  | empty
  | plain (d : String)
  | special (ls : SpecialPayload)
deriving DecidableEq, Repr

/-- The displayed state mutated by cmd_update and cmd_clearfocus. -/
structure PaneState where
  worldPane : WorldData
  /-- The plist tool selection (deselected when the world changes). -/
  plistSelection : Option String
  localePane : LocaleData
  populacePane : String
  focusPane : FocusContent
  /-- focuspane_special_val, the special-focus working values: none models
  the empty array. -/
  focuspane_special_val : Option SpecialPayload
  /-- focuspane_special_editplist: whether the variable holds the editable
  portlist div rather than null. -/
  focuspane_special_editplist : Bool
  insttoolPane : Option String
  /-- Whether the portal add/remove control was recomputed, as
  toolpane_portal_addremove does whenever the focus changes. -/
  portalAddRemoveRecomputed : Bool
deriving DecidableEq, Repr

/-- An update message: every pane field independently optional
(undefined when absent), plus the focusspecial flag. -/
structure UpdateMsg where
  world : Option WorldData
  locale : Option LocaleData
  populace : Option String
  focus : Option FocusField
  focusspecial : Bool
  insttool : Option String
deriving DecidableEq, Repr

/-- focuspane_clear: remove the focus pane (the working values are not
touched by this function). -/
def focuspane_clear (s : PaneState) : PaneState :=
  { s with focusPane := .empty }

/-- focuspane_set: display a plain description pane. -/
def focuspane_set (desc : String) (s : PaneState) : PaneState :=
  { s with focusPane := .plain desc }

/-- The error pane text of the catch handler of focuspane_set_special,
with the exception text elided. -/
def specialFocusErrorText (typetag : String) : String :=
  "[Error creating special focus " ++ typetag ++ "]"

/-- focuspane_set_special: store the payload in focuspane_special_val and
reset focuspane_special_editplist to null, then build the special pane by
type tag; an editable portlist additionally stores its edit div in
focuspane_special_editplist; an unrecognized type tag shows the fallback
debug pane; a payload whose construction raises is caught, the working
values reset and an error pane shown. -/
def focuspane_set_special (ls : SpecialPayload) (s : PaneState) :
    PaneState :=
  match ls with
  | .raising t =>
    { s with
      focuspane_special_val := none,
      focuspane_special_editplist := false,
      focusPane := .plain (specialFocusErrorText t) }
  | .other t sf =>
    { s with
      focuspane_special_val := some ls,
      focuspane_special_editplist := false,
      focusPane := .plain ("### " ++ t ++ ": " ++ sf) }
  | .portlist _ _ editable =>
    { s with
      focuspane_special_val := some ls,
      focuspane_special_editplist := editable,
      focusPane := .special ls }
  | _ =>
    { s with
      focuspane_special_val := some ls,
      focuspane_special_editplist := false,
      focusPane := .special ls }

/-- cmd_update: each present field updates its pane; an absent field is
skipped. A present focus first resets the special working values, then a
falsy value clears the pane, a truthy one is handed to
focuspane_set_special under the focusspecial flag (which stores the
payload back into the working values) or to focuspane_set otherwise, and
the portal add/remove control is recomputed. -/
def cmd_update (obj : UpdateMsg) (s : PaneState) : PaneState :=
  let s :=
    match obj.world with
    | none => s
    | some w => { s with worldPane := w, plistSelection := none }
  let s :=
    match obj.locale with
    | none => s
    | some l => { s with localePane := l }
  let s :=
    match obj.populace with
    | none => s
    | some p => { s with populacePane := p }
  let s :=
    match obj.focus with
    | none => s
    | some f =>
      let s :=
        { s with
          focuspane_special_val := none,
          focuspane_special_editplist := false }
      let s :=
        match f with
        | .falsy => focuspane_clear s
        | .val v =>
          if obj.focusspecial then focuspane_set_special v.special s
          else focuspane_set v.desc s
      { s with portalAddRemoveRecomputed := true }
  match obj.insttool with
  | none => s
  | some it => { s with insttoolPane := some it }

/-- cmd_clearfocus: reset the special working values, clear the focus
pane and recompute the portal add/remove control. -/
def cmd_clearfocus (s : PaneState) : PaneState :=
  let s :=
    { s with
      focuspane_special_val := none,
      focuspane_special_editplist := false }
  let s := focuspane_clear s
  { s with portalAddRemoveRecomputed := true }

/-! ## C5 and C6: cmd_updateplist

seg.map is a JS object keyed by portal id; seg.list is rebuilt on every
updateplist message as the values of seg.map sorted by ascending listpos.
-/

/-- A portal entry of the plist tool segment. We keep only the fields that
matter to the list rebuild; others are opaque payload. -/
structure Portal where
  listpos : Int
  payload : String
deriving DecidableEq, Repr

/-- An association list with JS object semantics: unique keys in insertion
order. -/
abbrev PortalMap := List (String × Portal)

/-- JS delete obj[k]. -/
def objDelete (m : PortalMap) (k : String) : PortalMap :=
  m.filter (fun p => p.1 ≠ k)

/-- JS obj[k] = v: replace in place when the key exists, append when it is
fresh. -/
def objSet (m : PortalMap) (k : String) (v : Portal) : PortalMap :=
  if m.any (fun p => p.1 = k) then
    m.map (fun p => if p.1 = k then (k, v) else p)
  else m ++ [(k, v)]

/-- JS obj[k], as an Option. -/
def objGet (m : PortalMap) (k : String) : Option Portal :=
  (m.find? (fun p => p.1 = k)).map Prod.snd

/-- One entry of the updateplist message map: none models the literal
false (remove this portal id), some is a portal object. -/
def applyPlistEntry (m : PortalMap) (e : String × Option Portal) :
    PortalMap :=
  match e.2 with
  | none => objDelete m e.1
  | some v => objSet m e.1 v

/-- The updateplist message payload. -/
structure UpdatePlistMsg where
  clear : Bool
  map : List (String × Option Portal)
deriving DecidableEq, Repr

/-- The plist tool segment state: the portal map and the displayed list. -/
structure PlistSeg where
  map : PortalMap
  list : List Portal
deriving DecidableEq, Repr

/-- The comparator passed to seg.list.sort: ascending listpos. The JS
comparator returns p1.listpos - p2.listpos; we model the resulting order
with a sort (insertion sort) that is correct for this comparator. -/
def listposLE (p q : Portal) : Prop := p.listpos ≤ q.listpos

instance : DecidableRel listposLE := fun p q =>
  inferInstanceAs (Decidable (p.listpos ≤ q.listpos))

/-- cmd_updateplist: optionally clear the map, apply every message map
entry (false removes by id, an object inserts or replaces by id), then
rebuild the displayed list as the map values sorted by listpos. -/
def cmd_updateplist (obj : UpdatePlistMsg) (seg : PlistSeg) : PlistSeg :=
  let m0 := if obj.clear then [] else seg.map
  let m1 := obj.map.foldl applyPlistEntry m0
  { map := m1,
    list := List.insertionSort listposLE (m1.map Prod.snd) }

/-- The plist segment as created by build_tool_pane: empty map and list. -/
def initPlistSeg : PlistSeg := { map := [], list := [] }

/-- A sequence of updateplist messages applied in arrival order. -/
def run_updateplist (msgs : List UpdatePlistMsg) (seg : PlistSeg) :
    PlistSeg :=
  msgs.foldl (fun s m => cmd_updateplist m s) seg

/-! ## C7 and C9: submit_line_input

The command history eventhistory and eventhistorypos are client-local; the
handler trims the line, stores it in the history unless blank or equal to
the last entry (capping the history at thirty entries by shifting the
oldest), clears the input field, and sends one message chosen by the first
character of the trimmed line. -/

/-- A JSON message sent over the websocket by the line input handler. -/
structure OutMsg where
  cmd : String
  text : String
deriving DecidableEq, Repr

/-- The client-local line input state. -/
structure LineInputState where
  eventhistory : List String
  eventhistorypos : Nat
deriving DecidableEq, Repr

/-- The initial state: var eventhistory = new Array(), eventhistorypos = 0. -/
def initLineInputState : LineInputState := { eventhistory := [], eventhistorypos := 0 }

/-- Result of one submit_line_input call: the new history state, the
message sent over the websocket (if any), and the line echoed into the
event pane (for slash commands). -/
structure SubmitResult where
  state : LineInputState
  sent : Option OutMsg
  echo : Option String
deriving DecidableEq, Repr

/-- submit_line_input (src/unnamed/part_002 lines 2248-2286). -/
def submit_line_input (st : LineInputState) (rawval : String) : SubmitResult :=
  let val := jstrim rawval
  let historylast : Option String := st.eventhistory.getLast?
  let hist :=
    if val ≠ "" ∧ some val ≠ historylast then
      let h := st.eventhistory ++ [val]
      if h.length > 30 then h.tail else h
    else st.eventhistory
  let pos := if val ≠ "" then hist.length else st.eventhistorypos
  let st1 : LineInputState := { eventhistory := hist, eventhistorypos := pos }
  if val = "" then
    { state := st1, sent := none, echo := none }
  else
    match val.data with
    | [] => { state := st1, sent := none, echo := none }
    | c :: restChars =>
      if c = ':' then
        { state := st1,
          sent := some { cmd := "pose", text := jstrim ⟨restChars⟩ },
          echo := none }
      else if c = '/' then
        { state := st1,
          sent := some { cmd := "meta", text := jstrim ⟨restChars⟩ },
          echo := some ("> " ++ val) }
      else
        { state := st1, sent := some { cmd := "say", text := val }, echo := none }

/-- A sequence of line submissions starting from the fresh page state. -/
def run_line_inputs (vals : List String) : LineInputState :=
  vals.foldl (fun st v => (submit_line_input st v).state) initLineInputState

/-! ## C10: selfdesc_desc_blur

The blur handler of the self-description editor normalizes the field
value, substitutes a default for an empty description, writes the
normalized value back into the field, and sends a selfdesc message only
when the value differs from focuspane_special_val[3]. -/

/-- The default description substituted for an empty one. -/
def defaultSelfDesc : String := "an ordinary explorer."

/-- Result of one blur: the value written back into the field, the stored
focuspane_special_val[3] afterwards, and the desc sent (if any). -/
structure BlurResult where
  field : String
  stored : String
  sent : Option String
deriving DecidableEq, Repr

/-- selfdesc_desc_blur (src/unnamed/part_002 lines 1809-1824). -/
def selfdesc_desc_blur (field stored : String) : BlurResult :=
  let val := collapseWs field
  let val := jstrim val
  let val := if val = "" then defaultSelfDesc else val
  if val = stored then { field := val, stored := stored, sent := none }
  else { field := val, stored := val, sent := some val }

/-! ## C8: parse_description

The description array is parsed into a list of paragraphs of DOM nodes.
The imperative algorithm appends each new node to the most deeply nested
open style element (or to the current paragraph); we keep the stack of
open elements with their children accumulated so far and attach each
element to its parent when it is closed (equivalently to the DOM tree the
appends build, since while an element is open nothing is appended above
it). The style-class table description_style_classes is defined outside
this repository and is passed in as a lookup function. -/

/-- One item of a description array: a string, or a tag array whose first
element is the tag name and whose second element (when used) is the style
name, link target or external URL. -/
inductive DescItem where
  | str (s : String)
  | tag (name : String) (arg : String)
deriving DecidableEq, Repr

/-- A DOM node built by parse_description. -/
inductive DNode where
  | text (s : String)
  | span (styleclass : Option String) (children : List DNode)
  | link (target : String) (children : List DNode)
  | exlink (href : String) (children : List DNode)

/-- An open element on the parse stack. -/
inductive OpenTag where
  | style (cls : Option String)
  | link (target : String)
  | exlink (href : String)
deriving DecidableEq, Repr

/-- An open element with the children appended to it so far. -/
structure OpenEl where
  el : OpenTag
  kids : List DNode

/-- The JS test objtag[0] == the slash character: true exactly when the
first character of the tag name is a slash (an empty name gives undefined,
which compares unequal). -/
def headIsSlash (name : String) : Bool :=
  match name.data with
  | [] => false
  | c :: _ => c = '/'

/-- The objstack entry tag name of an open element. -/
def openTagName (e : OpenEl) : String :=
  match e.el with
  | .style _ => "style"
  | .link _ => "link"
  | .exlink _ => "exlink"

/-- Close an open element: build the DOM node it denotes. -/
def buildEl (e : OpenEl) : DNode :=
  match e.el with
  | .style cls => .span cls e.kids
  | .link t => .link t e.kids
  | .exlink h => .exlink h e.kids

/-- Parser state: finished paragraphs, stack of open elements (head is the
most deeply nested), the children already attached to the current
paragraph, curparasize and curinlink. -/
structure PState where
  parals : List (List DNode)
  stack : List OpenEl
  cur : List DNode
  cursize : Nat
  curinlink : Bool

/-- The initial parser state: one fresh empty paragraph. -/
def initPState : PState :=
  { parals := [], stack := [], cur := [], cursize := 0, curinlink := false }

/-- Append a node to the current parent: the most deeply nested open
element, or the current paragraph when no style is open. -/
def pushNode (st : PState) (n : DNode) : PState :=
  match st.stack with
  | [] => { st with cur := st.cur ++ [n] }
  | e :: r => { st with stack := { e with kids := e.kids ++ [n] } :: r }

/-- Attach the already-built node of the innermost closed element into the
remaining open elements, outward, yielding the final children of the
current paragraph. -/
def closeAllGo : List OpenEl → DNode → List DNode → List DNode
  | [], n, cur => cur ++ [n]
  | e :: r, n, cur => closeAllGo r (buildEl { e with kids := e.kids ++ [n] }) cur

/-- Attach every open element to its parent, innermost first, yielding the
final children of the current paragraph (the shape the DOM already has,
since each element was appended to its parent when it was opened). -/
def closeAll : List OpenEl → List DNode → List DNode
  | [], cur => cur
  | e :: r, cur => closeAllGo r (buildEl e) cur

/-- The error node appended when an end tag does not match the innermost
open tag, chosen by the end tag name as in the source. -/
def endTagError (name : String) (e : OpenEl) : Option DNode :=
  if name = "/link" then
    if openTagName e ≠ "link" then some (.text "[Mismatched end of link]")
    else none
  else if name = "/exlink" then
    if openTagName e ≠ "exlink" then
      some (.text "[Mismatched end of external link]")
    else none
  else if name = "/style" then
    if openTagName e ≠ "style" then some (.text "[Mismatched end of style]")
    else none
  else some (.text ("[Unrecognized end tag " ++ name ++ "]"))

/-- Process one description item. -/
def parse_item (styles : String → Option String) (st : PState)
    (item : DescItem) : PState :=
  match item with
  | .str s =>
    if s.length ≠ 0 then
      { pushNode st (.text s) with cursize := st.cursize + 1 }
    else st
  | .tag name arg =>
    if name = "para" then
      let st :=
        if st.stack.isEmpty then st
        else
          let st1 := pushNode st (.text "[Unclosed tags at end of paragraph]")
          { st1 with
            stack := [],
            cur := closeAll st1.stack st1.cur,
            cursize := st1.cursize + 1 }
      if st.cursize = 0 then st
      else
        { parals := st.parals ++ [st.cur], stack := [], cur := [],
          cursize := 0, curinlink := false }
    else if headIsSlash name then
      match st.stack with
      | [] =>
        { pushNode st (.text "[End tag with no start tag]") with
          cursize := st.cursize + 1 }
      | e :: rest =>
        let st1 :=
          match endTagError name e with
          | some n =>
            { st with
              stack := { e with kids := e.kids ++ [n] } :: rest,
              cursize := st.cursize + 1 }
          | none => st
        let st1 :=
          if name = "/link" || name = "/exlink" then
            { st1 with curinlink := false }
          else st1
        match st1.stack with
        | [] => st1
        | e1 :: rest1 =>
          match rest1 with
          | [] =>
            { st1 with stack := [], cur := st1.cur ++ [buildEl e1] }
          | e2 :: r2 =>
            { st1 with
              stack := { e2 with kids := e2.kids ++ [buildEl e1] } :: r2 }
    else if name = "style" then
      let cls := styles arg
      let kids0 : List DNode :=
        match cls with
        | none => [.text "[Unrecognized style name]"]
        | some _ => []
      { st with
        stack := { el := .style cls, kids := kids0 } :: st.stack,
        cursize := st.cursize + 1 }
    else if name = "link" then
      let st1 :=
        if st.curinlink then pushNode st (.text "[Nested links]") else st
      { st1 with
        stack := { el := .link arg, kids := [] } :: st1.stack,
        cursize := st1.cursize + 1,
        curinlink := true }
    else if name = "exlink" then
      let st1 :=
        if st.curinlink then pushNode st (.text "[Nested links]") else st
      { st1 with
        stack := { el := .exlink arg, kids := [] } :: st1.stack,
        cursize := st1.cursize + 1,
        curinlink := true }
    else
      { pushNode st (.text ("[Unrecognized tag " ++ name ++ "]")) with
        cursize := st.cursize + 1 }

/-- Process a whole description array: fold over the items, report still
unclosed tags, and drop the last paragraph when it never got content. -/
def parse_items (styles : String → Option String) (items : List DescItem) :
    List (List DNode) :=
  let st := items.foldl (parse_item styles) initPState
  let st :=
    if st.stack.isEmpty then st
    else
      { st with
        stack := [],
        cur := closeAll st.stack st.cur ++
          [DNode.text "[Unclosed tags at end of text]"],
        cursize := st.cursize + 1 }
  if st.cursize = 0 then st.parals else st.parals ++ [st.cur]

/-- The argument of parse_description: null or undefined, a raw string
(treated as a single unstyled paragraph), or a description array. -/
inductive DescInput where
  | nullOrUndefined
  | raw (s : String)
  | arr (items : List DescItem)
deriving DecidableEq, Repr

/-- parse_description (src/unnamed/part_002 lines 2062-2220). -/
def parse_description (styles : String → Option String) (desc : DescInput) :
    List (List DNode) :=
  match desc with
  | .nullOrUndefined => []
  | .raw s => parse_items styles [.str s]
  | .arr items => parse_items styles items

/-- The whitespace discipline of a collapsed string, scanned left to
right: every whitespace character is a plain space, no two are adjacent,
and (when the flag is true) the string does not start with one. -/
def wsOk : Bool → List Char → Bool
  | _, [] => true
  | prev, c :: rest =>
    if jsIsSpace c then !prev && (c = ' ') && wsOk true rest
    else wsOk false rest

/-- The normalized self-description computed by selfdesc_desc_blur:
whitespace runs collapsed, ends trimmed, the default substituted for an
empty result. -/
def normalizeSelfDesc (field : String) : String :=
  let v := jstrim (collapseWs field)
  if v = "" then defaultSelfDesc else v

/-- A concrete style-class table (the shape of description_style_classes,
which is defined outside this repository), used for closed evaluations. -/
def styles0 : String → Option String :=
  fun s => if s = "emph" then some "StyleEmph" else none

/-- The parser invariant: every finished paragraph is nonempty, and the
current paragraph is nonempty whenever curparasize is positive and no
element is open (an open element always contributes a node on close). -/
def PInv (st : PState) : Prop :=
  (∀ p ∈ st.parals, p ≠ []) ∧
  (st.stack = [] → st.cursize ≠ 0 → st.cur ≠ [])

instance : IsTotal Portal listposLE :=
  ⟨fun a b => Int.le_total a.listpos b.listpos⟩

instance : IsTrans Portal listposLE :=
  ⟨fun _ _ _ h1 h2 => le_trans h1 h2⟩

/-! # Theorems -/

/-- C1: a websocket message whose cmd is not a key of command_table is
logged and ignored by the part_002 handler, but in the static/js/play.js
handler the missing return means the undefined table entry is called and a
TypeError is raised: the play.js code contradicts the spec sentence that
unknown commands are logged and ignored, while the sibling copy of the
same function implements exactly that. Shown at the concrete unknown
command bogus. -/
theorem evhan_websocket_message_unknown_cmd :
    command_table "bogus" = none ∧
    evhan_websocket_message (some ⟨some "bogus"⟩) =
      DispatchResult.loggedUnknown ∧
    evhan_websocket_message_play_js (some ⟨some "bogus"⟩) =
      DispatchResult.raised ∧
    (∀ h : Handler,
      evhan_websocket_message (some ⟨some "bogus"⟩) ≠
        DispatchResult.handled h) := by
  refine ⟨by decide, by decide, by decide, ?_⟩
  intro h
  cases h <;> decide

/-- C2: an error reply to a property save leaves the stored value and the
displayed row content (key input and subpane areas) unchanged and marks
the row dirty with the warning shown; a success reply refreshes the row to
exactly the property returned by the server and clears the dirty flag and
warning; the revert button rebuilds the row from the last stored server
value. -/
theorem evhan_button_save_error_and_revert (pr : PropRef) (msg : String)
    (p : PropData) :
    evhan_button_save_reply pr (.error msg) =
      some { pr with dirty := true, warning := some msg } ∧
    evhan_button_save_reply pr (.success p) =
      some { val := p, displayedKey := p.key, areas := editls p.val,
             dirty := false, warning := none } ∧
    evhan_button_revert pr =
      { pr with displayedKey := pr.val.key, areas := editls pr.val.val,
                dirty := false, warning := none } := by
  refine ⟨rfl, ?_, ?_⟩ <;>
    simp [evhan_button_save_reply, evhan_button_revert, update_prop,
      prop_set_dirty, prop_set_warning]

/-- C7: submit_line_input sends exactly one message chosen by the first
character of the trimmed line: pose with the trimmed remainder after a
colon, meta with the trimmed remainder after a slash, say with the trimmed
line otherwise; a line that trims to empty sends nothing. -/
theorem submit_line_input_message (st : LineInputState) (rawval : String) :
    (submit_line_input st rawval).sent =
      match (jstrim rawval).data with
      | [] => none
      | c :: rest =>
        if c = ':' then some { cmd := "pose", text := jstrim ⟨rest⟩ }
        else if c = '/' then some { cmd := "meta", text := jstrim ⟨rest⟩ }
        else some { cmd := "say", text := jstrim rawval } := by
  by_cases hv : jstrim rawval = ""
  · simp [submit_line_input, hv]
  · have hd : (jstrim rawval).data ≠ [] := by
      intro h
      exact hv (by cases hs : jstrim rawval with
        | _ d => simpa [hs, String.ext_iff] using h)
    simp only [submit_line_input, hv, if_false]
    cases hcs : (jstrim rawval).data with
    | nil => exact absurd hcs hd
    | cons c rest =>
      simp only [hcs]
      by_cases hc1 : c = ':' <;> by_cases hc2 : c = '/' <;> simp_all

/-- C4: cmd_update touches exactly the panes whose fields are present in
the message: an absent field leaves the corresponding displayed state
unchanged, a present field sets it (a present world also deselects the
plist entry; a present focus resets the special working values, then a
falsy value clears the pane while a truthy special value stores the
payload back into focuspane_special_val, an editable portlist into
focuspane_special_editplist, and a raising payload is caught into an error
pane with the working values reset), and cmd_clearfocus performs exactly
the explicit clear of an update whose focus field is false. -/
theorem cmd_update_only_present_fields (obj : UpdateMsg) (s : PaneState) :
    ((cmd_update obj s).worldPane =
       match obj.world with
       | none => s.worldPane
       | some w => w) ∧
    ((cmd_update obj s).plistSelection =
       match obj.world with
       | none => s.plistSelection
       | some _ => none) ∧
    ((cmd_update obj s).localePane =
       match obj.locale with
       | none => s.localePane
       | some l => l) ∧
    ((cmd_update obj s).populacePane =
       match obj.populace with
       | none => s.populacePane
       | some p => p) ∧
    ((cmd_update obj s).focusPane =
       match obj.focus with
       | none => s.focusPane
       | some .falsy => .empty
       | some (.val v) =>
         if obj.focusspecial then
           match v.special with
           | .raising t => .plain (specialFocusErrorText t)
           | .other t sf => .plain ("### " ++ t ++ ": " ++ sf)
           | ls => .special ls
         else .plain v.desc) ∧
    ((cmd_update obj s).focuspane_special_val =
       match obj.focus with
       | none => s.focuspane_special_val
       | some .falsy => none
       | some (.val v) =>
         if obj.focusspecial then
           match v.special with
           | .raising _ => none
           | ls => some ls
         else none) ∧
    ((cmd_update obj s).focuspane_special_editplist =
       match obj.focus with
       | none => s.focuspane_special_editplist
       | some .falsy => false
       | some (.val v) =>
         if obj.focusspecial then
           match v.special with
           | .portlist _ _ editable => editable
           | _ => false
         else false) ∧
    ((cmd_update obj s).insttoolPane =
       match obj.insttool with
       | none => s.insttoolPane
       | some it => some it) ∧
    cmd_clearfocus s =
      cmd_update
        { world := none, locale := none, populace := none,
          focus := some .falsy, focusspecial := false, insttool := none }
        s := by
  obtain ⟨w, l, p, f, fs, it⟩ := obj
  cases w <;> cases l <;> cases p <;> cases it <;> cases fs <;>
    rcases f with _ | (_ | ⟨d, ls⟩) <;>
    (try cases ls) <;>
    simp [cmd_update, cmd_clearfocus, focuspane_clear, focuspane_set,
      focuspane_set_special]

/-- The first component of getLastD does not depend on the key of the
default pair. -/
theorem getLastD_fst_default (r : List (Nat × String)) (t : Nat)
    (k1 k2 : String) :
    (r.getLastD (t, k1)).1 = (r.getLastD (t, k2)).1 := by
  cases r with
  | nil => rfl
  | cons x xs =>
    have h := List.getLast?_eq_getLast (x :: xs) (by simp)
    simp [h]

/-- While further calls arrive strictly less than 2000 ms after the call
that scheduled the pending timer, the timer never fires in between: each
call cancels and reschedules it, and it finally fires 2000 ms after the
last call, sending one message holding every accumulated key with its
current uiprefs value. -/
theorem run_uipref_calls_pending (uiprefs : String → String)
    (rest : List (Nat × String)) :
    ∀ (t0 : Nat) (c : List String)
      (sentAcc : List (Nat × List (String × String))),
    gapsUnder2s t0 rest →
    run_uipref_calls uiprefs true rest
        { changed := c, timer := some (t0 + 2000), sent := sentAcc } =
      { changed := [], timer := none,
        sent := sentAcc ++
          [((rest.getLastD (t0, "")).1 + 2000,
            (rest.foldl (fun acc e => objInsertKey acc e.2) c).map
              (fun k => (k, uiprefs k)))] } := by
  induction rest with
  | nil =>
    intro t0 c sentAcc _
    simp [run_uipref_calls, send_uipref_changed, List.getLastD]
  | cons e r ih =>
    obtain ⟨t, k⟩ := e
    intro t0 c sentAcc hg
    obtain ⟨h1, h2, h3⟩ := hg
    have hnot : ¬ (t0 + 2000 ≤ t) := by omega
    have step := ih t (objInsertKey c k) sentAcc h3
    simp only [run_uipref_calls, hnot, if_false, note_uipref_changed] at step ⊢
    rw [step, List.getLastD_cons, getLastD_fst_default r t k ""]
    simp

/-- C3: starting from an idle state, a sequence of N at least 1
note_uipref_changed calls whose consecutive gaps are under 2 seconds
produces, with the connection up, exactly one uiprefs message; it fires
2000 ms after the last call and its map holds exactly the accumulated
changed keys, each with its current uiprefs value; and every call
reschedules the pending timer to 2000 ms after itself. -/
theorem note_uipref_changed_debounce (uiprefs : String → String)
    (t1 : Nat) (k1 : String) (rest : List (Nat × String))
    (hg : gapsUnder2s t1 rest) :
    run_uipref_calls uiprefs true ((t1, k1) :: rest)
        { changed := [], timer := none, sent := [] } =
      { changed := [], timer := none,
        sent := [((rest.getLastD (t1, k1)).1 + 2000,
          (((t1, k1) :: rest).foldl (fun acc e => objInsertKey acc e.2)
              []).map (fun k => (k, uiprefs k)))] } ∧
    (∀ (now : Nat) (key : String) (s : DebounceState),
      (note_uipref_changed now key s).timer = some (now + 2000)) := by
  refine ⟨?_, fun now key s => rfl⟩
  have h := run_uipref_calls_pending uiprefs rest t1 (objInsertKey [] k1) [] hg
  simp only [run_uipref_calls, note_uipref_changed] at h ⊢
  rw [h, getLastD_fst_default rest t1 "" k1]
  simp

/-- C3 witness: three calls at 0, 1000 and 1500 ms produce exactly one
message, at 3500 ms, with the union of the changed keys. -/
theorem note_uipref_changed_debounce_witness :
    gapsUnder2s 0 [(1000, "b"), (1500, "a")] ∧
    run_uipref_calls (fun k => String.append k "1") true
        [(0, "a"), (1000, "b"), (1500, "a")]
        { changed := [], timer := none, sent := [] } =
      { changed := [], timer := none,
        sent := [(3500, [("a", "a1"), ("b", "b1")])] } :=
  ⟨by decide,
   ((note_uipref_changed_debounce (fun k => String.append k "1")
       0 "a" [(1000, "b"), (1500, "a")] (by decide)).1).trans (by decide)⟩

/-- Deleting a key removes exactly that key from a JS object. -/
theorem objGet_objDelete (m : PortalMap) (kd k : String) :
    objGet (objDelete m kd) k = if k = kd then none else objGet m k := by
  induction m with
  | nil => simp [objGet, objDelete]
  | cons p rest ih =>
    by_cases h1 : p.1 = kd <;> by_cases h2 : p.1 = k <;>
      simp_all [objGet, objDelete, List.filter_cons, List.find?_cons]

/-- Replacing the entries of one key leaves lookups of other keys
unchanged and turns a successful lookup of that key into the new value. -/
theorem objGet_mapRepl (m : PortalMap) (ks k : String) (v : Portal) :
    objGet (m.map (fun p => if p.1 = ks then (ks, v) else p)) k =
      if k = ks then (objGet m k).map (fun _ => v) else objGet m k := by
  induction m with
  | nil => simp [objGet]
  | cons p rest ih =>
    by_cases h1 : p.1 = ks <;> by_cases h2 : p.1 = k <;>
      [skip; skip; skip; skip] <;> simp_all [objGet, List.find?_cons, eq_comm]

/-- A present key in a JS object. -/
theorem objGet_isSome_of_any (m : PortalMap) (ks : String)
    (h : m.any (fun p => p.1 = ks) = true) : (objGet m ks).isSome := by
  induction m with
  | nil => simp at h
  | cons p rest ih =>
    by_cases h1 : p.1 = ks <;> simp_all [objGet, List.find?_cons]

/-- An absent key in a JS object. -/
theorem objGet_none_of_not_any (m : PortalMap) (ks : String)
    (h : ¬ m.any (fun p => p.1 = ks) = true) : objGet m ks = none := by
  induction m with
  | nil => rfl
  | cons p rest ih =>
    simp only [List.any_cons, Bool.or_eq_true, not_or] at h
    obtain ⟨h1, h2⟩ := h
    simp only [decide_eq_true_eq] at h1
    rcases hf : List.find? (fun q => decide (q.1 = ks)) rest with _ | w
    · simp [objGet, List.find?_cons, h1, hf]
    · have hrest := ih h2
      simp [objGet, hf] at hrest

/-- Lookup distributes over append, preferring the left object. -/
theorem objGet_append (m1 m2 : PortalMap) (k : String) :
    objGet (m1 ++ m2) k = (objGet m1 k).or (objGet m2 k) := by
  induction m1 with
  | nil => simp [objGet]
  | cons p rest ih =>
    by_cases h : p.1 = k <;> simp_all [objGet, List.find?_cons]

/-- Assignment to a JS object key: lookups of that key give the new value,
lookups of other keys are unchanged. -/
theorem objGet_objSet (m : PortalMap) (ks k : String) (v : Portal) :
    objGet (objSet m ks v) k = if k = ks then some v else objGet m k := by
  by_cases hany : m.any (fun p => p.1 = ks) = true
  · have hs := objGet_isSome_of_any m ks hany
    rw [objSet, if_pos hany, objGet_mapRepl]
    by_cases hk : k = ks
    · subst hk
      obtain ⟨w, hw⟩ := Option.isSome_iff_exists.mp hs
      simp [hw]
    · simp [hk]
  · rw [objSet, if_neg hany, objGet_append]
    have hone : objGet [(ks, v)] k = if k = ks then some v else none := by
      by_cases hk : k = ks <;> simp [objGet, List.find?_cons, hk, eq_comm]
    by_cases hk : k = ks
    · subst hk
      rw [objGet_none_of_not_any m k hany, hone]
      simp
    · rw [hone, if_neg hk, if_neg hk, Option.or_none]

/-- One message map entry only affects its own portal id. -/
theorem objGet_applyPlistEntry_ne (m : PortalMap)
    (e : String × Option Portal) (k : String) (h : e.1 ≠ k) :
    objGet (applyPlistEntry m e) k = objGet m k := by
  obtain ⟨ke, ov⟩ := e
  cases ov with
  | none => rw [applyPlistEntry, objGet_objDelete, if_neg (by simpa [eq_comm] using h)]
  | some v => rw [applyPlistEntry, objGet_objSet, if_neg (by simpa [eq_comm] using h)]

/-- Portal ids not mentioned in a message map are preserved. -/
theorem objGet_foldl_not_mentioned (es : List (String × Option Portal)) :
    ∀ (m : PortalMap) (k : String), (∀ e ∈ es, e.1 ≠ k) →
    objGet (es.foldl applyPlistEntry m) k = objGet m k := by
  induction es with
  | nil => intro m k _; rfl
  | cons e rest ih =>
    intro m k h
    rw [List.foldl_cons, ih _ k (fun x hx => h x (List.mem_cons_of_mem e hx)),
      objGet_applyPlistEntry_ne m e k (h e (List.mem_cons_self e rest))]

/-- Folding a message map over a JS object: a portal id mapped to false is
removed, a portal id mapped to an object gets that object, every other id
keeps its previous binding. -/
theorem objGet_foldl_applyPlistEntry (es : List (String × Option Portal)) :
    ∀ (m : PortalMap) (k : String), (es.map Prod.fst).Nodup →
    objGet (es.foldl applyPlistEntry m) k =
      (match es.lookup k with
       | some none => none
       | some (some v) => some v
       | none => objGet m k) := by
  induction es with
  | nil => intro m k _; rfl
  | cons e rest ih =>
    intro m k hnd
    obtain ⟨ke, ov⟩ := e
    rw [List.map_cons, List.nodup_cons] at hnd
    obtain ⟨hnotin, hnd2⟩ := hnd
    by_cases hk : ke = k
    · subst hk
      have hrest : ∀ x ∈ rest, x.1 ≠ ke := by
        intro x hx hcon
        have hmem : x.1 ∈ rest.map Prod.fst := List.mem_map_of_mem Prod.fst hx
        rw [hcon] at hmem
        exact hnotin hmem
      rw [List.foldl_cons, objGet_foldl_not_mentioned rest _ ke hrest]
      cases ov with
      | none =>
        simp [List.lookup_cons, applyPlistEntry, objGet_objDelete]
      | some v =>
        simp [List.lookup_cons, applyPlistEntry, objGet_objSet]
    · rw [List.foldl_cons, ih _ k hnd2]
      have hbeq : (k == ke) = false :=
        beq_eq_false_iff_ne.mpr (fun h => hk h.symm)
      rw [List.lookup_cons]
      simp only [hbeq]
      cases hlk : List.lookup k rest with
      | none =>
        simp only [hlk]
        exact objGet_applyPlistEntry_ne m (ke, ov) k hk
      | some w => cases w <;> rfl

/-- C5: the portal map after cmd_updateplist agrees, id by id, with the
previous map (or the empty map when the clear flag is set) with every
message entry applied: a false entry removes its portal id, an object
entry inserts or replaces it, and every id not mentioned in the message
map keeps its previous portal. -/
theorem cmd_updateplist_map_spec (obj : UpdatePlistMsg) (seg : PlistSeg)
    (k : String) (hnd : (obj.map.map Prod.fst).Nodup) :
    objGet (cmd_updateplist obj seg).map k =
      (match obj.map.lookup k with
       | some none => none
       | some (some v) => some v
       | none => if obj.clear then none else objGet seg.map k) := by
  show objGet (obj.map.foldl applyPlistEntry
      (if obj.clear then [] else seg.map)) k = _
  rw [objGet_foldl_applyPlistEntry obj.map _ k hnd]
  cases hlk : List.lookup k obj.map with
  | none =>
    simp only
    cases hc : obj.clear
    · simp
    · simp [objGet]
  | some w => cases w <;> simp

/-- C5 witness: with a previous map holding portals a and b, a message
removing a and adding c yields a map without a, with b preserved and c
present. -/
theorem cmd_updateplist_map_spec_witness :
    (((([("a", (none : Option Portal)), ("c", some ⟨5, "pc"⟩)]).map
        Prod.fst).Nodup) ∧
      objGet (cmd_updateplist
          { clear := false,
            map := [("a", none), ("c", some ⟨5, "pc"⟩)] }
          { map := [("a", ⟨1, "pa"⟩), ("b", ⟨2, "pb"⟩)], list := [] }).map
        "a" = none) := by
  refine ⟨by decide, ?_⟩
  exact (cmd_updateplist_map_spec
    { clear := false, map := [("a", none), ("c", some ⟨5, "pc"⟩)] }
    { map := [("a", ⟨1, "pa"⟩), ("b", ⟨2, "pb"⟩)], list := [] }
    "a" (by decide)).trans (by decide)

/-- C6 counterexample: the client code imposes no distinctness on listpos;
one updateplist message whose two portals share listpos 1 produces a
displayed list whose positions are [1, 1], which is not strictly
increasing and has a duplicate position. -/
theorem run_updateplist_equal_listpos_counterexample :
    (run_updateplist
        [{ clear := false,
           map := [("a", some ⟨1, "pa"⟩), ("b", some ⟨1, "pb"⟩)] }]
        initPlistSeg).list.map Portal.listpos = [1, 1] ∧
    ¬ ((run_updateplist
        [{ clear := false,
           map := [("a", some ⟨1, "pa"⟩), ("b", some ⟨1, "pb"⟩)] }]
        initPlistSeg).list.Pairwise
          (fun p q : Portal => p.listpos < q.listpos)) := by
  decide

/-- After any updateplist message the displayed list is sorted by listpos,
and when the map values carry pairwise distinct listpos the order is
strict. -/
theorem cmd_updateplist_list_sorted (obj : UpdatePlistMsg) (seg : PlistSeg) :
    (cmd_updateplist obj seg).list.Pairwise listposLE ∧
    (((cmd_updateplist obj seg).map.map Prod.snd).Pairwise
        (fun p q : Portal => p.listpos ≠ q.listpos) →
      (cmd_updateplist obj seg).list.Pairwise
        (fun p q : Portal => p.listpos < q.listpos)) := by
  have hsorted : ((cmd_updateplist obj seg).list).Pairwise listposLE :=
    List.sorted_insertionSort listposLE _
  refine ⟨hsorted, fun hdist => ?_⟩
  have hperm : (cmd_updateplist obj seg).list.Perm
      ((cmd_updateplist obj seg).map.map Prod.snd) :=
    List.perm_insertionSort listposLE _
  have hne : (cmd_updateplist obj seg).list.Pairwise
      (fun p q : Portal => p.listpos ≠ q.listpos) :=
    (List.Perm.pairwise_iff (fun {_ _} h he => h he.symm) hperm).mpr hdist
  exact (hsorted.and hne).imp (fun h => lt_of_le_of_ne h.1 h.2)

/-- C6, amended: after any nonempty sequence of updateplist messages from
the initial empty segment (and trivially after none), the displayed list
seg.list is sorted in nondecreasing listpos order; whenever the portals in
the map carry pairwise distinct listpos values, as the server-side
ordering invariant provides, the order is strictly increasing with no
duplicate positions. -/
theorem run_updateplist_list_sorted (msgs : List UpdatePlistMsg) :
    (run_updateplist msgs initPlistSeg).list.Pairwise listposLE ∧
    (((run_updateplist msgs initPlistSeg).map.map Prod.snd).Pairwise
        (fun p q : Portal => p.listpos ≠ q.listpos) →
      (run_updateplist msgs initPlistSeg).list.Pairwise
        (fun p q : Portal => p.listpos < q.listpos)) := by
  have haux : ∀ (ms : List UpdatePlistMsg) (seg : PlistSeg), ms ≠ [] →
      (run_updateplist ms seg).list.Pairwise listposLE ∧
      (((run_updateplist ms seg).map.map Prod.snd).Pairwise
          (fun p q : Portal => p.listpos ≠ q.listpos) →
        (run_updateplist ms seg).list.Pairwise
          (fun p q : Portal => p.listpos < q.listpos)) := by
    intro ms
    induction ms with
    | nil => intro seg h; exact absurd rfl h
    | cons m rest ih =>
      intro seg _
      cases rest with
      | nil => exact cmd_updateplist_list_sorted m seg
      | cons m2 r2 =>
        have := ih (cmd_updateplist m seg) (by simp)
        simpa [run_updateplist] using this
  cases msgs with
  | nil => exact ⟨List.Pairwise.nil, fun _ => List.Pairwise.nil⟩
  | cons m rest => exact haux (m :: rest) initPlistSeg (by simp)

/-- C6 witness: two portals with distinct positions 2 and 1 come back in
strictly increasing order. -/
theorem run_updateplist_list_sorted_witness :
    (run_updateplist
        [{ clear := false,
           map := [("a", some ⟨2, "pa"⟩), ("b", some ⟨1, "pb"⟩)] }]
        initPlistSeg).list.Pairwise
      (fun p q : Portal => p.listpos < q.listpos) :=
  (run_updateplist_list_sorted
    [{ clear := false,
       map := [("a", some ⟨2, "pa"⟩), ("b", some ⟨1, "pb"⟩)] }]).2
    (by decide)

/-- The history written by one submit_line_input call, as a function of
the previous state: unchanged for a blank or duplicate line, otherwise the
trimmed line is appended and the oldest entry shifted off past thirty. -/
theorem submit_line_input_state_eventhistory (st : LineInputState)
    (raw : String) :
    ((submit_line_input st raw).state).eventhistory =
      (if jstrim raw ≠ "" ∧ some (jstrim raw) ≠ st.eventhistory.getLast? then
        (if (st.eventhistory ++ [jstrim raw]).length > 30
         then (st.eventhistory ++ [jstrim raw]).tail
         else st.eventhistory ++ [jstrim raw])
       else st.eventhistory) := by
  by_cases hv : jstrim raw = ""
  · simp [submit_line_input, hv]
  · rcases hd : (jstrim raw).data with _ | ⟨c, rest⟩
    · simp [submit_line_input, hv, hd]
    · by_cases hc1 : c = ':' <;> by_cases hc2 : c = '/' <;>
        simp [submit_line_input, hv, hd, hc1, hc2]

/-- One submit_line_input call preserves the history invariant: at most
thirty entries, no blank entry, no two consecutive equal entries. -/
theorem submit_line_input_history_step (st : LineInputState) (raw : String)
    (h1 : st.eventhistory.length ≤ 30) (h2 : "" ∉ st.eventhistory)
    (h3 : st.eventhistory.Chain' (· ≠ ·)) :
    ((submit_line_input st raw).state).eventhistory.length ≤ 30 ∧
    "" ∉ ((submit_line_input st raw).state).eventhistory ∧
    ((submit_line_input st raw).state).eventhistory.Chain' (· ≠ ·) := by
  rw [submit_line_input_state_eventhistory]
  by_cases hcond : jstrim raw ≠ "" ∧
      some (jstrim raw) ≠ st.eventhistory.getLast?
  · rw [if_pos hcond]
    have hmemapp : "" ∉ st.eventhistory ++ [jstrim raw] := by
      intro hmem
      rcases List.mem_append.mp hmem with hmem | hmem
      · exact h2 hmem
      · exact hcond.1 (List.mem_singleton.mp hmem).symm
    have hchainapp : (st.eventhistory ++ [jstrim raw]).Chain' (· ≠ ·) := by
      rw [List.chain'_append]
      refine ⟨h3, List.chain'_singleton _, ?_⟩
      intro x hx y hy
      rw [List.head?_cons, Option.mem_some_iff] at hy
      subst hy
      intro hxy
      exact hcond.2 (by rw [hxy] at hx; exact (Option.mem_def.mp hx).symm ▸ rfl)
    by_cases hlen : (st.eventhistory ++ [jstrim raw]).length > 30
    · rw [if_pos hlen]
      refine ⟨?_, fun hm => hmemapp (List.mem_of_mem_tail hm),
        hchainapp.tail⟩
      rw [List.length_tail, List.length_append, List.length_singleton]
      omega
    · rw [if_neg hlen]
      rw [List.length_append, List.length_singleton] at hlen ⊢
      exact ⟨by omega, hmemapp, hchainapp⟩
  · rw [if_neg hcond]
    exact ⟨h1, h2, h3⟩

/-- C9: after any sequence of submit_line_input calls from the fresh page
state, the command history has at most thirty entries, no empty entry and
no two consecutive equal entries; and a nonblank, nonduplicate line
arriving when the history is full appends the line and discards exactly
the oldest entry. -/
theorem submit_line_input_history (vals : List String) :
    ((run_line_inputs vals).eventhistory.length ≤ 30 ∧
     "" ∉ (run_line_inputs vals).eventhistory ∧
     (run_line_inputs vals).eventhistory.Chain' (· ≠ ·)) ∧
    (∀ (st : LineInputState) (raw : String),
      st.eventhistory.length = 30 →
      jstrim raw ≠ "" →
      st.eventhistory.getLast? ≠ some (jstrim raw) →
      ((submit_line_input st raw).state).eventhistory =
        st.eventhistory.tail ++ [jstrim raw]) := by
  constructor
  · have haux : ∀ (vs : List String) (st : LineInputState),
        st.eventhistory.length ≤ 30 → "" ∉ st.eventhistory →
        st.eventhistory.Chain' (· ≠ ·) →
        ((vs.foldl (fun s v => (submit_line_input s v).state) st).eventhistory.length ≤ 30 ∧
         "" ∉ (vs.foldl (fun s v => (submit_line_input s v).state) st).eventhistory ∧
         (vs.foldl (fun s v => (submit_line_input s v).state) st).eventhistory.Chain'
           (· ≠ ·)) := by
      intro vs
      induction vs with
      | nil => intro st ha hb hc; exact ⟨ha, hb, hc⟩
      | cons v rest ih =>
        intro st ha hb hc
        obtain ⟨ha2, hb2, hc2⟩ := submit_line_input_history_step st v ha hb hc
        exact ih _ ha2 hb2 hc2
    exact haux vals initLineInputState (by simp [initLineInputState])
      (by simp [initLineInputState]) (by simp [initLineInputState])
  · intro st raw h30 hraw hlast
    rw [submit_line_input_state_eventhistory,
      if_pos ⟨hraw, fun h => hlast h.symm⟩,
      if_pos (by rw [List.length_append, List.length_singleton, h30]; omega)]
    cases hh : st.eventhistory with
    | nil => rw [hh] at h30; simp at h30
    | cons a t => simp

/-- C9 witness: a full history of thirty entries plus a fresh distinct
line shifts off the oldest entry. -/
theorem submit_line_input_history_witness :
    ((submit_line_input ⟨List.replicate 30 "x", 30⟩ "y").state).eventhistory =
      (List.replicate 30 "x").tail ++ ["y"] :=
  (submit_line_input_history []).2 ⟨List.replicate 30 "x", 30⟩ "y"
    (by decide) (by decide) (by decide)

/-- The head surviving a dropWhile fails the predicate. -/
theorem head?_dropWhile_not (p : Char → Bool) (l : List Char) (c : Char)
    (h : (l.dropWhile p).head? = some c) : p c = false := by
  induction l with
  | nil => simp at h
  | cons a rest ih =>
    by_cases hp : p a
    · rw [List.dropWhile_cons_of_pos hp] at h
      exact ih h
    · rw [List.dropWhile_cons_of_neg hp] at h
      rw [List.head?_cons, Option.some_inj] at h
      subst h
      simpa using hp

/-- dropWhile is the identity when the head already fails the predicate. -/
theorem dropWhile_eq_self_of_head (p : Char → Bool) (l : List Char)
    (h : ∀ c, l.head? = some c → p c = false) : l.dropWhile p = l := by
  cases l with
  | nil => rfl
  | cons a rest =>
    exact List.dropWhile_cons_of_neg (by simp [h a rfl])

/-- The output of the whitespace collapse satisfies the collapsed
discipline. -/
theorem wsOk_collapseWsAux (l : List Char) :
    ∀ b, wsOk b (collapseWsAux b l) = true := by
  induction l with
  | nil => intro b; rfl
  | cons c rest ih =>
    intro b
    by_cases hc : jsIsSpace c
    · cases b with
      | true => simpa [collapseWsAux, hc] using ih true
      | false =>
        simp only [collapseWsAux, hc, if_true, Bool.false_eq_true, if_false]
        simpa [wsOk, jsIsSpace] using ih true
    · simpa [collapseWsAux, hc, wsOk] using ih false

/-- A list satisfying the collapsed discipline is unchanged by another
collapse. -/
theorem collapseWsAux_of_wsOk (l : List Char) :
    ∀ b, wsOk b l = true → collapseWsAux b l = l := by
  induction l with
  | nil => intro b _; rfl
  | cons c rest ih =>
    intro b h
    by_cases hc : jsIsSpace c
    · rw [wsOk, if_pos hc] at h
      simp only [Bool.and_eq_true, Bool.not_eq_eq_eq_not, Bool.not_true,
        decide_eq_true_eq] at h
      obtain ⟨⟨hb, hsp⟩, hrest⟩ := h
      subst hb
      rw [collapseWsAux, if_pos hc]
      simp only [Bool.false_eq_true, if_false]
      rw [hsp, ih true hrest]
    · rw [wsOk, if_neg hc] at h
      rw [collapseWsAux, if_neg hc, ih false h]

/-- The collapsed discipline is closed under taking prefixes. -/
theorem wsOk_append_left (l1 l2 : List Char) :
    ∀ b, wsOk b (l1 ++ l2) = true → wsOk b l1 = true := by
  induction l1 with
  | nil => intro b _; rfl
  | cons c rest ih =>
    intro b h
    rw [List.cons_append, wsOk] at h
    by_cases hc : jsIsSpace c
    · rw [if_pos hc] at h
      simp only [Bool.and_eq_true] at h
      obtain ⟨⟨hb, hsp⟩, hrest⟩ := h
      rw [wsOk, if_pos hc]
      simp [hb, hsp, ih true hrest]
    · rw [if_neg hc] at h
      rw [wsOk, if_neg hc, ih false h]

/-- The collapsed discipline survives dropping the leading space. -/
theorem wsOk_dropWhile (l : List Char)
    (h : wsOk false l = true) : wsOk false (l.dropWhile jsIsSpace) = true := by
  cases l with
  | nil => exact h
  | cons c rest =>
    by_cases hc : jsIsSpace c
    · rw [List.dropWhile_cons_of_pos hc]
      rw [wsOk, if_pos hc] at h
      simp only [Bool.and_eq_true] at h
      obtain ⟨_, hrest⟩ := h
      cases rest with
      | nil => rfl
      | cons d r =>
        by_cases hd : jsIsSpace d
        · rw [wsOk, if_pos hd] at hrest
          simp at hrest
        · rw [List.dropWhile_cons_of_neg hd]
          rw [wsOk, if_neg hd] at hrest ⊢
          exact hrest
    · rw [List.dropWhile_cons_of_neg hc]
      exact h

/-- The collapsed discipline is closed under the two-sided trim. -/
theorem wsOk_jstrimList (l : List Char)
    (h : wsOk false l = true) : wsOk false (jstrimList l) = true := by
  have ha : wsOk false (l.dropWhile jsIsSpace) = true := wsOk_dropWhile l h
  obtain ⟨t, ht⟩ :=
    List.dropWhile_suffix (l := (l.dropWhile jsIsSpace).reverse) (p := jsIsSpace)
  have hsplit : (l.dropWhile jsIsSpace).reverse =
      t ++ ((l.dropWhile jsIsSpace).reverse.dropWhile jsIsSpace) := ht.symm
  have hpref : l.dropWhile jsIsSpace =
      ((l.dropWhile jsIsSpace).reverse.dropWhile jsIsSpace).reverse ++
        t.reverse := by
    have := congrArg List.reverse hsplit
    simpa [List.reverse_append] using this
  rw [hpref] at ha
  exact wsOk_append_left _ _ false ha

/-- The two-sided trim is idempotent. -/
theorem jstrimList_idem (l : List Char) :
    jstrimList (jstrimList l) = jstrimList l := by
  set a := l.dropWhile jsIsSpace with hadef
  set d := a.reverse.dropWhile jsIsSpace with hddef
  have hr : jstrimList l = d.reverse := rfl
  cases hdn : d with
  | nil => rw [hr, hdn]; rfl
  | cons c dr =>
    have hdne : d ≠ [] := by rw [hdn]; simp
    have hane : a ≠ [] := by
      intro hcon
      rw [hcon] at hddef
      simp at hddef
      exact hdne hddef
    have hahead : ∀ ch, a.head? = some ch → jsIsSpace ch = false := by
      intro ch hch
      exact head?_dropWhile_not jsIsSpace l ch (hadef ▸ hch)
    have hdlast : d.getLast? = a.head? := by
      obtain ⟨t, ht⟩ := List.dropWhile_suffix (l := a.reverse) (p := jsIsSpace)
      rw [hddef]
      calc (a.reverse.dropWhile jsIsSpace).getLast?
          = (t ++ a.reverse.dropWhile jsIsSpace).getLast? :=
            (List.getLast?_append_of_ne_nil t (by rw [← hddef, hdn]; simp)).symm
        _ = a.reverse.getLast? := by rw [ht]
        _ = a.head? := List.getLast?_reverse a
    have hrhead : ∀ ch, d.reverse.head? = some ch → jsIsSpace ch = false := by
      intro ch hch
      rw [List.head?_reverse, hdlast] at hch
      exact hahead ch hch
    have hdhead : ∀ ch, d.head? = some ch → jsIsSpace ch = false := by
      intro ch hch
      exact head?_dropWhile_not jsIsSpace a.reverse ch (hddef ▸ hch)
    rw [hr]
    show ((d.reverse.dropWhile jsIsSpace).reverse.dropWhile jsIsSpace).reverse
      = d.reverse
    rw [dropWhile_eq_self_of_head jsIsSpace d.reverse hrhead,
      List.reverse_reverse,
      dropWhile_eq_self_of_head jsIsSpace d hdhead]

/-- The blur handler, written through the normalized description. -/
theorem selfdesc_desc_blur_eq (field stored : String) :
    selfdesc_desc_blur field stored =
      (if normalizeSelfDesc field = stored
       then { field := normalizeSelfDesc field, stored := stored,
              sent := none }
       else { field := normalizeSelfDesc field,
              stored := normalizeSelfDesc field,
              sent := some (normalizeSelfDesc field) }) := rfl

/-- The normalized description is never empty. -/
theorem normalizeSelfDesc_ne_empty (f : String) :
    normalizeSelfDesc f ≠ "" := by
  by_cases hv : jstrim (collapseWs f) = ""
  · simp only [normalizeSelfDesc, hv, if_true, if_pos]
    decide
  · simp [normalizeSelfDesc, hv]

/-- Normalizing an already normalized description changes nothing. -/
theorem normalizeSelfDesc_idem (f : String) :
    normalizeSelfDesc (normalizeSelfDesc f) = normalizeSelfDesc f := by
  by_cases hv : jstrim (collapseWs f) = ""
  · have h1 : normalizeSelfDesc f = defaultSelfDesc := by
      simp [normalizeSelfDesc, hv]
    rw [h1]
    decide
  · have h1 : normalizeSelfDesc f = jstrim (collapseWs f) := by
      simp [normalizeSelfDesc, hv]
    rw [h1]
    have hdata : (jstrim (collapseWs f)).data =
        jstrimList (collapseWsAux false f.data) := rfl
    have hok : wsOk false (jstrim (collapseWs f)).data = true := by
      rw [hdata]
      exact wsOk_jstrimList _ (wsOk_collapseWsAux f.data false)
    have hcol : collapseWs (jstrim (collapseWs f)) = jstrim (collapseWs f) := by
      show (⟨collapseWsAux false (jstrim (collapseWs f)).data⟩ : String) = _
      rw [collapseWsAux_of_wsOk _ false hok]
    have htr : jstrim (jstrim (collapseWs f)) = jstrim (collapseWs f) := by
      show (⟨jstrimList (jstrim (collapseWs f)).data⟩ : String) = _
      rw [hdata, jstrimList_idem]
      rfl
    rw [normalizeSelfDesc, hcol, htr]
    simp [hv]

/-- C10: blurring the self-description editor collapses whitespace runs,
trims, substitutes the default for an empty result, and sends a selfdesc
message exactly when the normalized value differs from the stored one; the
value written back and any sent value equal the normalized value, which is
never empty, and blurring again without editing sends nothing. -/
theorem selfdesc_desc_blur_spec (field stored : String) :
    (selfdesc_desc_blur field stored).field = normalizeSelfDesc field ∧
    (selfdesc_desc_blur field stored).stored =
      (if normalizeSelfDesc field = stored then stored
       else normalizeSelfDesc field) ∧
    (selfdesc_desc_blur field stored).sent =
      (if normalizeSelfDesc field = stored then none
       else some (normalizeSelfDesc field)) ∧
    normalizeSelfDesc field ≠ "" ∧
    (selfdesc_desc_blur field stored).sent ≠ some "" ∧
    selfdesc_desc_blur (selfdesc_desc_blur field stored).field
        (selfdesc_desc_blur field stored).stored =
      { field := (selfdesc_desc_blur field stored).field,
        stored := (selfdesc_desc_blur field stored).stored,
        sent := none } := by
  have hsecond : selfdesc_desc_blur (normalizeSelfDesc field)
      (normalizeSelfDesc field) =
      { field := normalizeSelfDesc field, stored := normalizeSelfDesc field,
        sent := none } := by
    rw [selfdesc_desc_blur_eq, normalizeSelfDesc_idem, if_pos rfl]
  by_cases hst : normalizeSelfDesc field = stored
  · refine ⟨?_, ?_, ?_, normalizeSelfDesc_ne_empty field, ?_, ?_⟩ <;>
      simp only [selfdesc_desc_blur_eq, hst, if_pos rfl, if_true] <;>
      try simp
    · rw [← hst]
      exact hsecond
  · refine ⟨?_, ?_, ?_, normalizeSelfDesc_ne_empty field, ?_, ?_⟩ <;>
      simp only [selfdesc_desc_blur_eq, hst, if_false, if_neg hst] <;>
      try simp
    · simp [normalizeSelfDesc_ne_empty field]
    · exact hsecond

/-- Collapsing open elements appends exactly one subtree to the paragraph. -/
theorem closeAllGo_eq_append (r : List OpenEl) :
    ∀ (n : DNode) (cur : List DNode), ∃ m, closeAllGo r n cur = cur ++ [m] := by
  induction r with
  | nil => intro n cur; exact ⟨n, rfl⟩
  | cons e rest ih => intro n cur; exact ih _ cur

/-- Collapsing a nonempty stack leaves a nonempty paragraph. -/
theorem closeAll_ne_nil (stack : List OpenEl) (cur : List DNode)
    (h : stack ≠ []) : closeAll stack cur ≠ [] := by
  cases stack with
  | nil => exact absurd rfl h
  | cons e r =>
    obtain ⟨m, hm⟩ := closeAllGo_eq_append r (buildEl e) cur
    rw [closeAll, hm]
    simp

/-- pushNode never touches the finished paragraphs. -/
theorem pushNode_parals (st : PState) (n : DNode) :
    (pushNode st n).parals = st.parals := by
  cases hs : st.stack <;> simp [pushNode, hs]

/-- pushNode never changes the shape of the stack head emptiness. -/
theorem pushNode_stack_nil_iff (st : PState) (n : DNode) :
    (pushNode st n).stack = [] ↔ st.stack = [] := by
  cases hs : st.stack <;> simp [pushNode, hs]

/-- pushNode to an empty stack extends the current paragraph. -/
theorem pushNode_cur_of_stack_nil (st : PState) (n : DNode)
    (h : st.stack = []) : (pushNode st n).cur = st.cur ++ [n] := by
  simp [pushNode, h]

/-- A pushNode with a cursize bump preserves the parser invariant. -/
theorem PInv_pushNode_inc (st : PState) (n : DNode) (k : Nat) (h : PInv st) :
    PInv { pushNode st n with cursize := k + 1 } := by
  obtain ⟨hpar, _⟩ := h
  refine ⟨by simpa [pushNode_parals] using hpar, ?_⟩
  intro hs _
  rw [show ({ pushNode st n with cursize := k + 1 } : PState).stack =
    (pushNode st n).stack from rfl] at hs
  have hnil := (pushNode_stack_nil_iff st n).mp hs
  rw [show ({ pushNode st n with cursize := k + 1 } : PState).cur =
    (pushNode st n).cur from rfl, pushNode_cur_of_stack_nil st n hnil]
  simp

/-- Processing one description item preserves the parser invariant. -/
theorem parse_item_inv (styles : String → Option String) (st : PState)
    (item : DescItem) (h : PInv st) : PInv (parse_item styles st item) := by
  obtain ⟨hpar, hcur⟩ := h
  cases item with
  | str s =>
    rw [parse_item]
    split
    · exact PInv_pushNode_inc st _ st.cursize ⟨hpar, hcur⟩
    · exact ⟨hpar, hcur⟩
  | tag name arg =>
    rw [parse_item]
    by_cases hpara : name = "para"
    · rw [if_pos hpara]
      by_cases hstk : st.stack.isEmpty = true
      · simp only [hstk, if_true]
        have hstknil : st.stack = [] := List.isEmpty_iff.mp hstk
        split
        · exact ⟨hpar, hcur⟩
        · rename_i hne0
          refine ⟨?_, fun _ h0 => absurd rfl h0⟩
          intro p hp
          rcases List.mem_append.mp hp with hp | hp
          · exact hpar p hp
          · rw [List.mem_singleton.mp hp]
            exact hcur hstknil hne0
      · simp only [hstk, Bool.false_eq_true, if_false]
        have hstkne : st.stack ≠ [] := by
          intro hcon
          exact hstk (by simp [hcon])
        have hpne : (pushNode st (.text "[Unclosed tags at end of paragraph]")).stack ≠ [] := by
          intro hcon
          exact hstkne ((pushNode_stack_nil_iff st _).mp hcon)
        split
        · rename_i h0
          exfalso
          revert h0
          simp
        · refine ⟨?_, fun _ h0 => absurd rfl h0⟩
          intro p hp
          rcases List.mem_append.mp hp with hp | hp
          · rw [pushNode_parals] at hp
            exact hpar p hp
          · rw [List.mem_singleton.mp hp]
            exact closeAll_ne_nil _ _ hpne
    · rw [if_neg hpara]
      by_cases hsl : headIsSlash name = true
      · rw [if_pos hsl]
        cases hstk : st.stack with
        | nil =>
          exact PInv_pushNode_inc st _ st.cursize ⟨hpar, hcur⟩
        | cons e rest =>
          dsimp only
          cases hET : endTagError name e with
          | some n =>
            cases rest with
            | nil =>
              by_cases hlk :
                  (decide (name = "/link") || decide (name = "/exlink")) = true
              · dsimp only
                rw [if_pos hlk]
                exact ⟨hpar, fun _ _ => by simp⟩
              · dsimp only
                rw [if_neg hlk]
                exact ⟨hpar, fun _ _ => by simp⟩
            | cons e2 r2 =>
              by_cases hlk :
                  (decide (name = "/link") || decide (name = "/exlink")) = true
              · dsimp only
                rw [if_pos hlk]
                exact ⟨hpar, fun hcon => absurd hcon (by simp)⟩
              · dsimp only
                rw [if_neg hlk]
                exact ⟨hpar, fun hcon => absurd hcon (by simp)⟩
          | none =>
            cases rest with
            | nil =>
              by_cases hlk :
                  (decide (name = "/link") || decide (name = "/exlink")) = true
              · dsimp only
                rw [if_pos hlk]
                simp only [hstk]
                exact ⟨hpar, fun _ _ => by simp⟩
              · dsimp only
                rw [if_neg hlk]
                simp only [hstk]
                exact ⟨hpar, fun _ _ => by simp⟩
            | cons e2 r2 =>
              by_cases hlk :
                  (decide (name = "/link") || decide (name = "/exlink")) = true
              · dsimp only
                rw [if_pos hlk]
                simp only [hstk]
                exact ⟨hpar, fun hcon => absurd hcon (by simp)⟩
              · dsimp only
                rw [if_neg hlk]
                simp only [hstk]
                exact ⟨hpar, fun hcon => absurd hcon (by simp)⟩
      · rw [if_neg hsl]
        by_cases hsty : name = "style"
        · rw [if_pos hsty]
          refine ⟨hpar, ?_⟩
          intro hcon
          simp at hcon
        · rw [if_neg hsty]
          by_cases hli : name = "link"
          · rw [if_pos hli]
            refine ⟨?_, ?_⟩
            · intro p hp
              split at hp <;> simp only [pushNode_parals] at hp <;>
                exact hpar p hp
            · intro hcon
              simp at hcon
          · rw [if_neg hli]
            by_cases hex : name = "exlink"
            · rw [if_pos hex]
              refine ⟨?_, ?_⟩
              · intro p hp
                split at hp <;> simp only [pushNode_parals] at hp <;>
                  exact hpar p hp
              · intro hcon
                simp at hcon
            · rw [if_neg hex]
              exact PInv_pushNode_inc st _ st.cursize ⟨hpar, hcur⟩

/-- The parser invariant holds after processing any item sequence. -/
theorem parse_items_foldl_inv (styles : String → Option String)
    (items : List DescItem) :
    PInv (items.foldl (parse_item styles) initPState) := by
  have haux : ∀ (its : List DescItem) (s : PState), PInv s →
      PInv (its.foldl (parse_item styles) s) := by
    intro its
    induction its with
    | nil => intro s hs; exact hs
    | cons i rest ih =>
      intro s hs
      exact ih _ (parse_item_inv styles s i hs)
  refine haux items initPState ⟨?_, ?_⟩
  · intro p hp
    simp [initPState] at hp
  · intro _ h0
    exact absurd rfl h0

/-- Every paragraph emitted by parse_items is nonempty. -/
theorem parse_items_no_empty_paragraph (styles : String → Option String)
    (items : List DescItem) :
    ∀ p ∈ parse_items styles items, p ≠ [] := by
  obtain ⟨hpar, hcur⟩ := parse_items_foldl_inv styles items
  rw [parse_items]
  by_cases hstk : (items.foldl (parse_item styles) initPState).stack.isEmpty = true
  · rw [if_pos hstk]
    have hstknil : (items.foldl (parse_item styles) initPState).stack = [] :=
      List.isEmpty_iff.mp hstk
    split
    · exact hpar
    · rename_i hne0
      intro p hp
      rcases List.mem_append.mp hp with hp | hp
      · exact hpar p hp
      · rw [List.mem_singleton.mp hp]
        exact hcur hstknil hne0
  · rw [if_neg hstk]
    split
    · rename_i h0
      exfalso
      revert h0
      simp
    · intro p hp
      rcases List.mem_append.mp hp with hp | hp
      · exact hpar p hp
      · rw [List.mem_singleton.mp hp]
        simp

/-- C8: for every description input, parse_description emits no empty
paragraph; null or undefined input yields the empty list; and malformed
markup (an end tag with no start tag, an unknown tag, a tag left unclosed
at the end of the text) yields inline error text nodes in the output
rather than an exception, shown on concrete malformed inputs. -/
theorem parse_description_paragraphs (styles : String → Option String)
    (desc : DescInput) :
    (∀ p ∈ parse_description styles desc, p ≠ []) ∧
    parse_description styles .nullOrUndefined = [] ∧
    parse_description styles (.arr [.tag "/foo" ""]) =
      [[DNode.text "[End tag with no start tag]"]] ∧
    parse_description styles (.arr [.tag "frob" ""]) =
      [[DNode.text "[Unrecognized tag frob]"]] ∧
    parse_description styles (.arr [.tag "link" "t", .str "x"]) =
      [[DNode.link "t" [DNode.text "x"],
        DNode.text "[Unclosed tags at end of text]"]] := by
  refine ⟨?_, rfl, by rfl, by rfl, by rfl⟩
  cases desc with
  | nullOrUndefined => intro p hp; simp [parse_description] at hp
  | raw s => exact parse_items_no_empty_paragraph styles [.str s]
  | arr items => exact parse_items_no_empty_paragraph styles items

/-- C8 witness: the single paragraph parsed from a raw string is indeed
nonempty. -/
theorem parse_description_paragraphs_witness :
    ([DNode.text "hello"] : List DNode) ≠ [] :=
  (parse_description_paragraphs styles0 (.raw "hello")).1 [DNode.text "hello"]
    (by
      rw [show parse_description styles0 (.raw "hello") =
        [[DNode.text "hello"]] from by rfl]
      exact List.mem_singleton.mpr rfl)
